import Mathlib

set_option maxRecDepth 40000

/-!
Verification of the NPC slot registry from src/game/npc/list.rs
(doukutsu-rs): a fixed 512-slot table of RefCell-like cells, a scanning
spawn allocator, a direct placement operation, an allocation cursor
(max_npc), two iterator views and a clear operation.

The embedding is a state-passing translation of the Rust code.  A slot is
its NPC content together with its borrow state at the instant under
consideration: busy means an exclusive borrow is outstanding elsewhere, so
a shared try_borrow fails and a replace or borrow_mut would panic.  Loops
are translated with an explicit step counter equal to the exact number of
remaining loop iterations, so all definitions compute.
-/

/-- The NPC entity payload.  Modelled from the spec: the registry consumes
from the entity an identifier, an alive-condition flag, a direction, a
script-facing direction override, per-entity rng state and a tick counter
(the NPC type itself lives outside this source file). -/
structure NPC where
  id : Nat
  condAlive : Bool
  direction : Nat
  tsc_direction : Nat
  rng : Int
  action_counter : Nat
deriving DecidableEq

/-- Modelled from the spec: the empty NPC sentinel value (not alive). -/
def NPC.empty : NPC :=
  { id := 0, condAlive := false, direction := 0, tsc_direction := 0, rng := 0, action_counter := 0 }

/-- Modelled from the spec: initializes the entity's own rng state from the
registry-wide seed at placement time. -/
def NPC.init_rng (npc : NPC) (seed : Int) : NPC :=
  { npc with rng := seed }

/-- One entity slot: a RefCell content plus its borrow state.  busy = true
means the cell is exclusively borrowed elsewhere at this instant. -/
structure Slot where
  content : NPC
  busy : Bool
deriving DecidableEq

/-- The recoverable error kind of the registry (framework/error.rs). -/
inductive GameError where
  | InvalidValue (msg : String)
deriving DecidableEq

/-- Maximum capacity of NPCList. -/
def NPC_LIST_MAX_CAP : Nat := 512

/-- The registry: the slot store, the allocation cursor and the rng seed. -/
structure NPCList where
  npcs : List Slot
  max_npc : Nat
  seed : Int
deriving DecidableEq

/-- Outcome of a state-passing registry operation.  ok and err carry the
registry state after the call; panicked models a RefCell borrow-conflict
panic (it carries the state at the moment of the panic: the conflicting
borrow is detected before any write happens). -/
inductive SpawnResult where
  | ok (st : NPCList)
  | err (e : GameError) (st : NPCList)
  | panicked (st : NPCList)
deriving DecidableEq

/-- The registry state carried by any outcome. -/
def SpawnResult.state : SpawnResult → NPCList
  | .ok st => st
  | .err _ st => st
  | .panicked st => st

/-- Whether the outcome is a successful return (Ok in the Rust code). -/
def SpawnResult.isOk : SpawnResult → Bool
  | .ok _ => true
  | _ => false

/-- NPCList::new — 512 slots, each holding an empty NPC whose id equals its
slot index; cursor 0, seed 0. -/
def NPCList.new : NPCList :=
  { npcs := (List.range NPC_LIST_MAX_CAP).map
      (fun idx => { content := { NPC.empty with id := idx }, busy := false }),
    max_npc := 0,
    seed := 0 }

/-- RefCell::replace through a slot handle: overwrite the content at
position j, keeping the borrow state.  Positions other than j are
untouched. -/
def setContent : List Slot → Nat → NPC → List Slot
  | [], _, _ => []
  | s :: rest, 0, c => { s with content := c } :: rest
  | s :: rest, j + 1, c => s :: setContent rest j c

/-- Eligibility test of the spawn scan, from the source:
try_borrow().is_ok_and(|npc_ref| !npc_ref.cond.alive()) — the slot is not
exclusively borrowed and its content is not alive. -/
def slotFree (s : Slot) : Bool := !s.busy && !s.content.condAlive

/-- The spawn-scan eligibility of the slot at position j of the store. -/
def freeAt (npcs : List Slot) (j : Nat) : Bool :=
  match npcs.get? j with
  | some s => slotFree s
  | none => false

/-- What the alive-only view tests on the slot at position j:
try_borrow().is_ok_and(|npc| npc.cond.alive()). -/
def aliveAt (st : NPCList) (j : Nat) : Bool :=
  match st.npcs.get? j with
  | some s => !s.busy && s.content.condAlive
  | none => false

/-- The scan loop of NPCList::spawn (for id in min_id..npc_len), fuel being
the number of remaining iterations: returns the first index from id on
whose slot passes the eligibility test, none if the range is exhausted. -/
def scanFromA : Nat → List Slot → Nat → Option Nat
  | 0, _, _ => none
  | fuel + 1, npcs, id =>
    match npcs.get? id with
    | some s => if slotFree s then some id else scanFromA fuel npcs (id + 1)
    | none => none

/-- The scan loop of NPCList::spawn starting at id. -/
def scanFrom (npcs : List Slot) (id : Nat) : Option Nat :=
  scanFromA (npcs.length - id) npcs id

/-- Field preparation shared by spawn and spawn_at_slot (source lines 49-55
and 78-84): set the entity id, default tsc_direction from direction when it
is the sentinel 0, then initialize the rng from the registry seed. -/
def prepareNpc (seed : Int) (id : Nat) (npc : NPC) : NPC :=
  let npc1 := { npc with id := id }
  let npc2 :=
    if npc1.tsc_direction = 0 then { npc1 with tsc_direction := npc1.direction } else npc1
  npc2.init_rng seed

/-- The write performed by a placement at slot id: replace the slot content
with the prepared entity and bump the cursor to id + 1 when it was ≤ id. -/
def NPCList.place (st : NPCList) (id : Nat) (npc : NPC) : NPCList :=
  { st with
    npcs := setContent st.npcs id (prepareNpc st.seed id npc),
    max_npc := if st.max_npc ≤ id then id + 1 else st.max_npc }

/-- NPCList::spawn — inserts the NPC into the first eligible slot at or
after min_id.  The out-of-bounds check, the scan, the placement and the
error on an exhausted scan follow source lines 38-68.  The unwrap and the
replace of the found slot are modelled by the get? match and the busy
check (replace panics on a borrowed cell). -/
def NPCList.spawn (st : NPCList) (min_id : Nat) (npc : NPC) : SpawnResult :=
  let npc_len := st.npcs.length
  if npc_len ≤ min_id then
    SpawnResult.err (GameError.InvalidValue "NPC ID is out of bounds") st
  else
    match scanFrom st.npcs min_id with
    | some id =>
      match st.npcs.get? id with
      | none => SpawnResult.panicked st
      | some slot =>
        if slot.busy then SpawnResult.panicked st
        else SpawnResult.ok (st.place id npc)
    | none => SpawnResult.err (GameError.InvalidValue "No free NPC slot found!") st

/-- NPCList::spawn_at_slot — inserts the NPC at the given slot (source
lines 71-94): only the bounds check guards the write; the replace of the
target cell panics when the cell is exclusively borrowed. -/
def NPCList.spawn_at_slot (st : NPCList) (id : Nat) (npc : NPC) : SpawnResult :=
  let npc_len := st.npcs.length
  if npc_len ≤ id then
    SpawnResult.err (GameError.InvalidValue "NPC ID is out of bounds") st
  else
    match st.npcs.get? id with
    | none => SpawnResult.panicked st
    | some slot =>
      if slot.busy then SpawnResult.panicked st
      else SpawnResult.ok (st.place id npc)

/-- NPCList::get_npc — returns the handle (the position) of the slot at id
when it is within the store, performing no borrow and no mutation; the
returned pair carries the registry state after the call. -/
def NPCList.get_npc (st : NPCList) (id : Nat) : Option Nat × NPCList :=
  ((st.npcs.get? id).map (fun _ => id), st)

/-- NPCList::current_capacity — the allocation cursor. -/
def NPCList.current_capacity (st : NPCList) : Nat := st.max_npc

/-- NPCList::max_capacity — the fixed constant 512. -/
def NPCList.max_capacity (_st : NPCList) : Nat := NPC_LIST_MAX_CAP

/-- One step of the all-assigned iterator (NPCListMutableIterator::next):
the cursor is read at the moment of the call; below it, the slot handle at
the current position is yielded and the position advances.  The first
component is the yielded item, the second the iterator position after the
call. -/
def iterNext (st : NPCList) (index : Nat) : Option Nat × Nat :=
  if st.max_npc ≤ index then (none, index)
  else ((st.npcs.get? index).map (fun _ => index), index + 1)

/-- One step of the alive-only iterator (NPCListMutableAliveIterator::next)
with an explicit count of remaining loop iterations: skip slots that fail
the shared-borrow-and-alive test, yield the first that passes, stop at the
cursor. -/
def aliveNextA : Nat → NPCList → Nat → Option Nat × Nat
  | 0, _, index => (none, index)
  | fuel + 1, st, index =>
    if st.max_npc ≤ index then (none, index)
    else
      match st.npcs.get? index with
      | none => (none, index + 1)
      | some s =>
        if !s.busy && s.content.condAlive then (some index, index + 1)
        else aliveNextA fuel st (index + 1)

/-- One step of the alive-only iterator from the given position; the loop
runs at most max_npc iterations. -/
def aliveNext (st : NPCList) (index : Nat) : Option Nat × Nat :=
  aliveNextA st.max_npc st index

/-- The positions the alive-only view yields from the given position on, in
order, against a fixed registry state. -/
def aliveIndicesFromA : Nat → NPCList → Nat → List Nat
  | 0, _, _ => []
  | fuel + 1, st, index =>
    if st.max_npc ≤ index then []
    else
      match st.npcs.get? index with
      | none => []
      | some s =>
        if !s.busy && s.content.condAlive then index :: aliveIndicesFromA fuel st (index + 1)
        else aliveIndicesFromA fuel st (index + 1)

/-- The positions the alive-only view yields from position 0. -/
def aliveIndices (st : NPCList) : List Nat :=
  aliveIndicesFromA st.max_npc st 0

/-- The loop of NPCList::clear: drive the alive-only iterator (index is its
position, idx the enumeration counter) and overwrite each yielded slot with
the empty NPC whose id is the enumeration position. -/
def clearLoopA : Nat → NPCList → Nat → Nat → NPCList
  | 0, st, _, _ => st
  | fuel + 1, st, index, idx =>
    if st.max_npc ≤ index then st
    else
      match st.npcs.get? index with
      | none => st
      | some s =>
        if !s.busy && s.content.condAlive then
          clearLoopA fuel
            { st with npcs := setContent st.npcs index { NPC.empty with id := idx } }
            (index + 1) (idx + 1)
        else clearLoopA fuel st (index + 1) idx

/-- NPCList::clear — erase every slot the alive-only view yields, then
reset the cursor to 0. -/
def NPCList.clear (st : NPCList) : NPCList :=
  { clearLoopA st.max_npc st 0 0 with max_npc := 0 }

/-- The operations that mutate the registry, for trace statements. -/
inductive Op where
  | spawn (min_id : Nat) (npc : NPC)
  | spawn_at_slot (id : Nat) (npc : NPC)
  | clear
deriving DecidableEq

/-- Apply one operation to the registry state. -/
def applyOp (st : NPCList) : Op → NPCList
  | .spawn m n => (st.spawn m n).state
  | .spawn_at_slot i n => (st.spawn_at_slot i n).state
  | .clear => st.clear

/-- Run a list of operations from the given state. -/
def run (st : NPCList) : List Op → NPCList
  | [] => st
  | op :: rest => run (applyOp st op) rest

/-- The slot index a successful placement operation targets, none when the
operation is a clear or does not return Ok. -/
def opPlaced (st : NPCList) : Op → Option Nat
  | .spawn m n =>
    match st.spawn m n with
    | SpawnResult.ok _ => scanFrom st.npcs m
    | _ => none
  | .spawn_at_slot i n =>
    match st.spawn_at_slot i n with
    | SpawnResult.ok _ => some i
    | _ => none
  | .clear => none

/-- All slot indices targeted by successful placements along a trace. -/
def placedIndices (st : NPCList) : List Op → List Nat
  | [] => []
  | op :: rest =>
    (match opPlaced st op with
     | some k => [k]
     | none => []) ++ placedIndices (applyOp st op) rest

/-- One more than the highest index of the list, 0 when it is empty. -/
def hiWater (l : List Nat) : Nat :=
  l.foldr (fun k m => Nat.max (k + 1) m) 0

/-- A concrete alive test entity. -/
def testNpc : NPC :=
  { id := 0, condAlive := true, direction := 2, tsc_direction := 0, rng := 7, action_counter := 0 }

/-- A concrete registry whose slot 5 is exclusively borrowed elsewhere. -/
def busyState : NPCList :=
  { NPCList.new with
    npcs := NPCList.new.npcs.set 5 { content := NPC.empty, busy := true } }

/-- A concrete registry with cursor 5 whose slot 1 holds an alive entity
under an exclusive borrow and whose slot 2 holds an alive, unborrowed
entity. -/
def mixedState : NPCList :=
  { NPCList.new with
    npcs := (NPCList.new.npcs.set 1 { content := testNpc, busy := true }).set 2
      { content := testNpc, busy := false },
    max_npc := 5 }

/-- A concrete registry with cursor 5 whose slot 2 holds an alive entity. -/
def clearDemo : NPCList :=
  { NPCList.new with
    npcs := NPCList.new.npcs.set 2 { content := testNpc, busy := false },
    max_npc := 5 }

/-- A concrete operation trace with two placements and no clear. -/
def demoOps : List Op :=
  [Op.spawn_at_slot 2 testNpc, Op.spawn 0 testNpc]


/-! ## Helper lemmas about the slot store -/

theorem setContent_length (l : List Slot) (j : Nat) (c : NPC) :
    (setContent l j c).length = l.length := by
  induction l generalizing j with
  | nil => simp [setContent]
  | cons s rest ih =>
    cases j with
    | zero => simp [setContent]
    | succ j => simp [setContent, ih]

theorem get?_setContent_self (l : List Slot) (j : Nat) (c : NPC) :
    (setContent l j c).get? j = (l.get? j).map (fun s => { s with content := c }) := by
  induction l generalizing j with
  | nil => simp [setContent]
  | cons s rest ih =>
    cases j with
    | zero => simp [setContent]
    | succ j => simpa [setContent] using ih j

theorem get?_setContent_ne (l : List Slot) (i j : Nat) (c : NPC) (h : i ≠ j) :
    (setContent l j c).get? i = l.get? i := by
  induction l generalizing i j with
  | nil => simp [setContent]
  | cons s rest ih =>
    cases j with
    | zero =>
      cases i with
      | zero => exact absurd rfl h
      | succ i => simp [setContent]
    | succ j =>
      cases i with
      | zero => simp [setContent]
      | succ i => simpa [setContent] using ih i j (by omega)

theorem freeAt_of_len_le (npcs : List Slot) (j : Nat) (h : npcs.length ≤ j) :
    freeAt npcs j = false := by
  unfold freeAt
  rw [List.get?_eq_none.mpr h]

/-! ## The spawn scan -/

theorem freeAt_eq_of_get? (npcs : List Slot) (j : Nat) (s : Slot) (h : npcs.get? j = some s) :
    freeAt npcs j = slotFree s := by
  unfold freeAt
  rw [h]

theorem scanFromA_some_iff (fuel : Nat) (npcs : List Slot) (id k : Nat)
    (hfuel : npcs.length ≤ id + fuel) :
    scanFromA fuel npcs id = some k ↔
      id ≤ k ∧ freeAt npcs k = true ∧ ∀ j, id ≤ j → j < k → freeAt npcs j = false := by
  induction fuel generalizing id with
  | zero =>
    simp only [scanFromA]
    constructor
    · intro h; exact absurd h (by simp)
    · rintro ⟨h1, h2, _⟩
      have : freeAt npcs k = false := freeAt_of_len_le npcs k (by omega)
      simp [this] at h2
  | succ fuel ih =>
    simp only [scanFromA]
    cases hg : npcs.get? id with
    | none =>
      have hlen : npcs.length ≤ id := List.get?_eq_none.mp hg
      constructor
      · intro h; exact absurd h (by simp)
      · rintro ⟨h1, h2, _⟩
        have : freeAt npcs k = false := freeAt_of_len_le npcs k (by omega)
        simp [this] at h2
    | some s =>
      have hfa : freeAt npcs id = slotFree s := freeAt_eq_of_get? npcs id s hg
      cases hfree : slotFree s with
      | true =>
        simp only [hfree, if_true]
        constructor
        · rintro h
          have hk : k = id := by cases h; rfl
          subst hk
          exact ⟨Nat.le_refl _, by rw [hfa, hfree], fun j h1 h2 => absurd h2 (by omega)⟩
        · rintro ⟨h1, h2, h3⟩
          by_cases hik : id = k
          · subst hik; rfl
          · have : freeAt npcs id = false := h3 id (Nat.le_refl _) (by omega)
            rw [hfa, hfree] at this
            exact absurd this (by simp)
      | false =>
        simp only [hfree]
        rw [if_neg (by simp), ih (id + 1) (by omega)]
        constructor
        · rintro ⟨h1, h2, h3⟩
          refine ⟨by omega, h2, fun j hj1 hj2 => ?_⟩
          by_cases hji : j = id
          · subst hji; rw [hfa, hfree]
          · exact h3 j (by omega) hj2
        · rintro ⟨h1, h2, h3⟩
          have hik : id ≠ k := by
            intro hik; subst hik
            rw [hfa, hfree] at h2
            exact absurd h2 (by simp)
          exact ⟨by omega, h2, fun j hj1 hj2 => h3 j (by omega) hj2⟩

theorem scanFromA_none_iff (fuel : Nat) (npcs : List Slot) (id : Nat)
    (hfuel : npcs.length ≤ id + fuel) :
    scanFromA fuel npcs id = none ↔ ∀ j, id ≤ j → freeAt npcs j = false := by
  induction fuel generalizing id with
  | zero =>
    simp only [scanFromA, true_iff]
    intro j hj
    exact freeAt_of_len_le npcs j (by omega)
  | succ fuel ih =>
    simp only [scanFromA]
    cases hg : npcs.get? id with
    | none =>
      have hlen : npcs.length ≤ id := List.get?_eq_none.mp hg
      simp only [true_iff]
      intro j hj
      exact freeAt_of_len_le npcs j (by omega)
    | some s =>
      have hfa : freeAt npcs id = slotFree s := freeAt_eq_of_get? npcs id s hg
      cases hfree : slotFree s with
      | true =>
        simp only [hfree, if_true]
        constructor
        · intro h; exact absurd h (by simp)
        · intro h
          have := h id (Nat.le_refl _)
          rw [hfa, hfree] at this
          exact absurd this (by simp)
      | false =>
        simp only [hfree]
        rw [if_neg (by simp), ih (id + 1) (by omega)]
        constructor
        · intro h j hj
          by_cases hji : j = id
          · subst hji; rw [hfa, hfree]
          · exact h j (by omega)
        · intro h j hj
          exact h j (by omega)

theorem scanFrom_some_iff (npcs : List Slot) (id k : Nat) :
    scanFrom npcs id = some k ↔
      id ≤ k ∧ freeAt npcs k = true ∧ ∀ j, id ≤ j → j < k → freeAt npcs j = false :=
  scanFromA_some_iff (npcs.length - id) npcs id k (by omega)

theorem scanFrom_none_iff (npcs : List Slot) (id : Nat) :
    scanFrom npcs id = none ↔ ∀ j, id ≤ j → freeAt npcs j = false :=
  scanFromA_none_iff (npcs.length - id) npcs id (by omega)

theorem freeAt_elim (npcs : List Slot) (j : Nat) (h : freeAt npcs j = true) :
    ∃ s, npcs.get? j = some s ∧ s.busy = false ∧ s.content.condAlive = false := by
  unfold freeAt at h
  cases hg : npcs.get? j with
  | none => rw [hg] at h; exact absurd h (by simp)
  | some s =>
    rw [hg] at h
    unfold slotFree at h
    refine ⟨s, rfl, ?_, ?_⟩ <;> [skip; skip] <;> cases hb : s.busy <;> cases ha : s.content.condAlive <;>
      simp [hb, ha] at h ⊢

theorem freeAt_lt_length (npcs : List Slot) (j : Nat) (h : freeAt npcs j = true) :
    j < npcs.length := by
  by_contra hc
  rw [freeAt_of_len_le npcs j (by omega)] at h
  exact absurd h (by simp)

/-! ## Direct characterizations of spawn and spawn_at_slot -/

theorem spawn_oob (st : NPCList) (m : Nat) (npc : NPC) (h : st.npcs.length ≤ m) :
    st.spawn m npc = SpawnResult.err (GameError.InvalidValue "NPC ID is out of bounds") st := by
  simp only [NPCList.spawn]
  rw [if_pos h]

theorem spawn_no_free (st : NPCList) (m : Nat) (npc : NPC) (hm : m < st.npcs.length)
    (hnone : ∀ k, m ≤ k → freeAt st.npcs k = false) :
    st.spawn m npc = SpawnResult.err (GameError.InvalidValue "No free NPC slot found!") st := by
  simp only [NPCList.spawn]
  rw [if_neg (by omega), (scanFrom_none_iff st.npcs m).mpr hnone]

theorem spawn_ok_of_least (st : NPCList) (m : Nat) (npc : NPC) (k : Nat)
    (hk : m ≤ k) (hfree : freeAt st.npcs k = true)
    (hmin : ∀ j, m ≤ j → j < k → freeAt st.npcs j = false) :
    st.spawn m npc = SpawnResult.ok (st.place k npc) := by
  have hklen := freeAt_lt_length _ _ hfree
  obtain ⟨s, hs, hbusy, _⟩ := freeAt_elim _ _ hfree
  simp only [NPCList.spawn]
  rw [if_neg (by omega), (scanFrom_some_iff st.npcs m k).mpr ⟨hk, hfree, hmin⟩]
  simp only [hs, hbusy]
  rw [if_neg (by simp)]

theorem spawn_ok_inv (st : NPCList) (m : Nat) (npc : NPC) (st1 : NPCList)
    (h : st.spawn m npc = SpawnResult.ok st1) :
    ∃ k, m ≤ k ∧ k < st.npcs.length ∧ freeAt st.npcs k = true ∧
      (∀ j, m ≤ j → j < k → freeAt st.npcs j = false) ∧ st1 = st.place k npc := by
  simp only [NPCList.spawn] at h
  by_cases hb : st.npcs.length ≤ m
  · rw [if_pos hb] at h; cases h
  · rw [if_neg hb] at h
    cases hscan : scanFrom st.npcs m with
    | none => rw [hscan] at h; cases h
    | some k =>
      rw [hscan] at h
      obtain ⟨hk1, hk2, hk3⟩ := (scanFrom_some_iff st.npcs m k).mp hscan
      obtain ⟨s, hs, hbusy, _⟩ := freeAt_elim _ _ hk2
      simp only [hs, hbusy] at h
      rw [if_neg (by simp)] at h
      cases h
      exact ⟨k, hk1, freeAt_lt_length _ _ hk2, hk2, hk3, rfl⟩

theorem spawn_err_state (st : NPCList) (m : Nat) (npc : NPC) (e : GameError) (st1 : NPCList)
    (h : st.spawn m npc = SpawnResult.err e st1) : st1 = st := by
  simp only [NPCList.spawn] at h
  by_cases hb : st.npcs.length ≤ m
  · rw [if_pos hb] at h; cases h; rfl
  · rw [if_neg hb] at h
    cases hscan : scanFrom st.npcs m with
    | none => simp only [hscan] at h; cases h; rfl
    | some k =>
      simp only [hscan] at h
      cases hg : st.npcs.get? k with
      | none => simp only [hg] at h; cases h
      | some s =>
        simp only [hg] at h
        cases hbusy : s.busy <;> simp only [hbusy] at h <;> simp at h

theorem spawn_at_slot_oob (st : NPCList) (i : Nat) (npc : NPC) (h : st.npcs.length ≤ i) :
    st.spawn_at_slot i npc
      = SpawnResult.err (GameError.InvalidValue "NPC ID is out of bounds") st := by
  simp only [NPCList.spawn_at_slot]
  rw [if_pos h]

theorem spawn_at_slot_ok_of_not_busy (st : NPCList) (i : Nat) (npc : NPC) (s : Slot)
    (hi : i < st.npcs.length) (hs : st.npcs.get? i = some s) (hbusy : s.busy = false) :
    st.spawn_at_slot i npc = SpawnResult.ok (st.place i npc) := by
  simp only [NPCList.spawn_at_slot]
  rw [if_neg (by omega)]
  simp only [hs, hbusy]
  rw [if_neg (by simp)]

theorem spawn_at_slot_busy (st : NPCList) (i : Nat) (npc : NPC) (s : Slot)
    (hi : i < st.npcs.length) (hs : st.npcs.get? i = some s) (hbusy : s.busy = true) :
    st.spawn_at_slot i npc = SpawnResult.panicked st := by
  simp only [NPCList.spawn_at_slot]
  rw [if_neg (by omega)]
  simp only [hs, hbusy]
  simp

theorem spawn_at_slot_ok_inv (st : NPCList) (i : Nat) (npc : NPC) (st2 : NPCList)
    (h : st.spawn_at_slot i npc = SpawnResult.ok st2) :
    i < st.npcs.length ∧ st2 = st.place i npc := by
  simp only [NPCList.spawn_at_slot] at h
  by_cases hb : st.npcs.length ≤ i
  · rw [if_pos hb] at h; cases h
  · rw [if_neg hb] at h
    cases hg : st.npcs.get? i with
    | none => simp only [hg] at h; cases h
    | some s =>
      simp only [hg] at h
      cases hbusy : s.busy with
      | true => simp only [hbusy] at h; simp at h
      | false =>
        simp only [hbusy] at h
        rw [if_neg (by simp)] at h
        cases h
        exact ⟨by omega, rfl⟩

theorem spawn_at_slot_err_state (st : NPCList) (i : Nat) (npc : NPC) (e : GameError)
    (st2 : NPCList) (h : st.spawn_at_slot i npc = SpawnResult.err e st2) : st2 = st := by
  simp only [NPCList.spawn_at_slot] at h
  by_cases hb : st.npcs.length ≤ i
  · rw [if_pos hb] at h; cases h; rfl
  · rw [if_neg hb] at h
    cases hg : st.npcs.get? i with
    | none => simp only [hg] at h; cases h
    | some s =>
      simp only [hg] at h
      cases hbusy : s.busy <;> simp only [hbusy] at h <;> simp at h

theorem get?_is_some_of_lt (l : List Slot) (k : Nat) (h : k < l.length) :
    ∃ s, l.get? k = some s := by
  cases hg : l.get? k with
  | none =>
    have := List.get?_eq_none.mp hg
    omega
  | some s => exact ⟨s, rfl⟩

theorem prepareNpc_id (seed : Int) (k : Nat) (npc : NPC) : (prepareNpc seed k npc).id = k := by
  unfold prepareNpc NPC.init_rng
  by_cases h : npc.tsc_direction = 0 <;> simp [h]

theorem prepareNpc_rng (seed : Int) (k : Nat) (npc : NPC) :
    (prepareNpc seed k npc).rng = seed := by
  unfold prepareNpc NPC.init_rng
  by_cases h : npc.tsc_direction = 0 <;> simp [h]

theorem prepareNpc_tsc (seed : Int) (k : Nat) (npc : NPC) :
    (prepareNpc seed k npc).tsc_direction
      = if npc.tsc_direction = 0 then npc.direction else npc.tsc_direction := by
  unfold prepareNpc NPC.init_rng
  by_cases h : npc.tsc_direction = 0 <;> simp [h]

theorem place_stored (st : NPCList) (k : Nat) (npc : NPC) (s : Slot)
    (hs : st.npcs.get? k = some s) :
    (st.place k npc).npcs.get? k = some { s with content := prepareNpc st.seed k npc } := by
  simp only [NPCList.place]
  rw [get?_setContent_self, hs]
  rfl

/-! ## Claim theorems -/

/-- C1: spawn(min_id, entity) either places the entity at the smallest slot
index k ≥ min_id (k < 512) whose content is not alive and not exclusively
borrowed at scan time, or fails; it never places at an index below min_id;
a busy slot encountered during the scan makes the eligibility test false
exactly as an occupied one does, so the scan proceeds past it without an
error; it fails with InvalidValue when min_id ≥ 512, and with the
no-free-slot InvalidValue when the scan from min_id on finds no eligible
slot. -/
theorem spawn_places_smallest_free_slot (st : NPCList) (min_id : Nat) (npc : NPC)
    (hlen : st.npcs.length = 512) :
    (512 ≤ min_id →
      st.spawn min_id npc
        = SpawnResult.err (GameError.InvalidValue "NPC ID is out of bounds") st)
  ∧ (min_id < 512 → (∀ k, min_id ≤ k → freeAt st.npcs k = false) →
      st.spawn min_id npc
        = SpawnResult.err (GameError.InvalidValue "No free NPC slot found!") st)
  ∧ (∀ k, min_id ≤ k → freeAt st.npcs k = true →
      (∀ j, min_id ≤ j → j < k → freeAt st.npcs j = false) →
      st.spawn min_id npc = SpawnResult.ok (st.place k npc))
  ∧ (∀ st1, st.spawn min_id npc = SpawnResult.ok st1 →
      ∃ k, min_id ≤ k ∧ k < 512 ∧ freeAt st.npcs k = true ∧
        (∀ j, min_id ≤ j → j < k → freeAt st.npcs j = false) ∧
        st1 = st.place k npc) := by
  refine ⟨fun h => spawn_oob st min_id npc (by omega),
    fun h1 h2 => spawn_no_free st min_id npc (by omega) h2,
    fun k hk hf hmin => spawn_ok_of_least st min_id npc k hk hf hmin,
    fun st1 h => ?_⟩
  obtain ⟨k, h1, h2, h3, h4, h5⟩ := spawn_ok_inv st min_id npc st1 h
  exact ⟨k, h1, by omega, h3, h4, h5⟩

/-- Witness for C1: on a fresh registry, spawning with min_id = 3 places at
slot 3, the smallest free slot at or after 3. -/
theorem spawn_places_smallest_free_slot_witness :
    NPCList.new.spawn 3 testNpc = SpawnResult.ok (NPCList.new.place 3 testNpc) :=
  (spawn_places_smallest_free_slot NPCList.new 3 testNpc (by decide)).2.2.1 3
    (by omega) (by decide) (by intro j h1 h2; exact absurd h2 (by omega))

/-- C4 counterexample: slot 5 of busyState is exclusively borrowed; with
id = 5 < 512, spawn_at_slot does not succeed — the replace of the borrowed
cell panics. -/
theorem spawn_at_slot_busy_slot_panics :
    (5 : Nat) < 512 ∧ busyState.npcs.length = 512 ∧
    busyState.spawn_at_slot 5 NPC.empty = SpawnResult.panicked busyState ∧
    (busyState.spawn_at_slot 5 NPC.empty).isOk = false := by decide

/-- C4 (amended): spawn_at_slot(id, entity) fails with InvalidValue exactly
when id ≥ 512; when id < 512 and the target slot is not exclusively
borrowed it succeeds and unconditionally overwrites the slot content
regardless of the slot's aliveness; when id < 512 but the target slot is
exclusively borrowed, the call panics on the borrow conflict instead of
succeeding. -/
theorem spawn_at_slot_overwrites (st : NPCList) (id : Nat) (npc : NPC)
    (hlen : st.npcs.length = 512) :
    (512 ≤ id →
      st.spawn_at_slot id npc
        = SpawnResult.err (GameError.InvalidValue "NPC ID is out of bounds") st)
  ∧ (∀ s, id < 512 → st.npcs.get? id = some s → s.busy = false →
      st.spawn_at_slot id npc = SpawnResult.ok (st.place id npc))
  ∧ (∀ s, id < 512 → st.npcs.get? id = some s → s.busy = true →
      st.spawn_at_slot id npc = SpawnResult.panicked st) :=
  ⟨fun h => spawn_at_slot_oob st id npc (by omega),
   fun s h1 h2 h3 => spawn_at_slot_ok_of_not_busy st id npc s (by omega) h2 h3,
   fun s h1 h2 h3 => spawn_at_slot_busy st id npc s (by omega) h2 h3⟩

/-- Witness for C4 (amended): on a fresh registry, spawn_at_slot at slot 7
succeeds and overwrites slot 7. -/
theorem spawn_at_slot_overwrites_witness :
    NPCList.new.spawn_at_slot 7 testNpc = SpawnResult.ok (NPCList.new.place 7 testNpc) :=
  (spawn_at_slot_overwrites NPCList.new 7 testNpc (by decide)).2.1
    { content := { NPC.empty with id := 7 }, busy := false } (by omega) (by decide) rfl

/-- C6: after every successful placement at index k (by spawn or by
spawn_at_slot), the entity stored in slot k has id = k, its tsc_direction
equals the entity's direction value when the incoming tsc_direction was the
sentinel 0 and the incoming value otherwise, and its rng state was
initialized from the registry-wide seed. -/
theorem placement_prepares_fields (st : NPCList) (m i : Nat) (npc : NPC)
    (st1 st2 : NPCList) :
    (st.spawn m npc = SpawnResult.ok st1 →
      ∃ k s, m ≤ k ∧ st1.npcs.get? k = some s ∧ s.content.id = k ∧
        s.content.rng = st.seed ∧
        s.content.tsc_direction
          = (if npc.tsc_direction = 0 then npc.direction else npc.tsc_direction))
  ∧ (st.spawn_at_slot i npc = SpawnResult.ok st2 →
      ∃ s, st2.npcs.get? i = some s ∧ s.content.id = i ∧
        s.content.rng = st.seed ∧
        s.content.tsc_direction
          = (if npc.tsc_direction = 0 then npc.direction else npc.tsc_direction)) := by
  constructor
  · intro h
    obtain ⟨k, hk1, hk2, _, _, h5⟩ := spawn_ok_inv st m npc st1 h
    obtain ⟨s, hs⟩ := get?_is_some_of_lt st.npcs k hk2
    subst h5
    exact ⟨k, { s with content := prepareNpc st.seed k npc }, hk1,
      place_stored st k npc s hs, prepareNpc_id _ _ _, prepareNpc_rng _ _ _,
      prepareNpc_tsc _ _ _⟩
  · intro h
    obtain ⟨hi, h2⟩ := spawn_at_slot_ok_inv st i npc st2 h
    obtain ⟨s, hs⟩ := get?_is_some_of_lt st.npcs i hi
    subst h2
    exact ⟨{ s with content := prepareNpc st.seed i npc },
      place_stored st i npc s hs, prepareNpc_id _ _ _, prepareNpc_rng _ _ _,
      prepareNpc_tsc _ _ _⟩

/-- Witness for C6: the entity stored by a concrete successful spawn on a
fresh registry (placed at slot 0) has id 0, rng from the seed and
tsc_direction defaulted from direction (testNpc has the sentinel 0). -/
theorem placement_prepares_fields_witness :
    ∃ k s, 0 ≤ k ∧ (NPCList.new.place 0 testNpc).npcs.get? k = some s ∧
      s.content.id = k ∧ s.content.rng = NPCList.new.seed ∧
      s.content.tsc_direction
        = (if testNpc.tsc_direction = 0 then testNpc.direction else testNpc.tsc_direction) :=
  (placement_prepares_fields NPCList.new 0 0 testNpc
      (NPCList.new.place 0 testNpc) NPCList.new).1 (by decide)

/-- C8: get_npc(id) returns a slot handle exactly when id is below the
fixed capacity 512 and nothing otherwise; the call performs no borrow and
leaves every slot and the cursor unchanged (the state it returns is the
input state). -/
theorem get_npc_iff_in_bounds (st : NPCList) (id : Nat) (hlen : st.npcs.length = 512) :
    ((st.get_npc id).1 = if id < 512 then some id else none)
  ∧ (((st.get_npc id).1).isSome = true ↔ id < 512)
  ∧ (st.get_npc id).2 = st := by
  have h1 : (st.get_npc id).1 = if id < 512 then some id else none := by
    simp only [NPCList.get_npc]
    cases hg : st.npcs.get? id with
    | none =>
      have := List.get?_eq_none.mp hg
      rw [if_neg (by omega)]
      rfl
    | some s =>
      have hlt : id < st.npcs.length := by
        by_contra hc
        rw [List.get?_eq_none.mpr (by omega)] at hg
        cases hg
      rw [if_pos (by omega)]
      rfl
  refine ⟨h1, ?_, rfl⟩
  rw [h1]
  by_cases h : id < 512
  · rw [if_pos h]; simpa using h
  · rw [if_neg h]; simpa using h

/-- Witness for C8: on a fresh registry, slot 9 yields a handle and slot
600 yields nothing. -/
theorem get_npc_iff_in_bounds_witness :
    ((NPCList.new.get_npc 600).1 = if 600 < 512 then some 600 else none)
  ∧ (((NPCList.new.get_npc 600).1).isSome = true ↔ 600 < 512)
  ∧ (NPCList.new.get_npc 600).2 = NPCList.new :=
  get_npc_iff_in_bounds NPCList.new 600 (by decide)

/-- C9: whenever spawn or spawn_at_slot returns an InvalidValue error, the
registry state it returns is exactly the input state: every slot holds the
same content and the cursor is unchanged. -/
theorem invalid_value_leaves_state_unchanged (st st1 st2 : NPCList) (m i : Nat)
    (n1 n2 : NPC) (e1 e2 : GameError) :
    (st.spawn m n1 = SpawnResult.err e1 st1 → st1 = st)
  ∧ (st.spawn_at_slot i n2 = SpawnResult.err e2 st2 → st2 = st) :=
  ⟨spawn_err_state st m n1 e1 st1, spawn_at_slot_err_state st i n2 e2 st2⟩

/-- Witness for C9: a concrete out-of-bounds spawn returns the InvalidValue
error carrying the unchanged fresh registry. -/
theorem invalid_value_leaves_state_unchanged_witness :
    (NPCList.new.spawn 600 NPC.empty
      = SpawnResult.err (GameError.InvalidValue "NPC ID is out of bounds") NPCList.new)
  ∧ NPCList.new = NPCList.new :=
  ⟨by decide,
   (invalid_value_leaves_state_unchanged NPCList.new NPCList.new NPCList.new 600 0
      NPC.empty NPC.empty (GameError.InvalidValue "NPC ID is out of bounds")
      (GameError.InvalidValue "x")).1 (by decide)⟩

/-! ## Iterator views -/

theorem place_length (st : NPCList) (k : Nat) (npc : NPC) :
    (st.place k npc).npcs.length = st.npcs.length := by
  simp only [NPCList.place]
  exact setContent_length _ _ _

theorem spawn_ok_preserves (st : NPCList) (m : Nat) (npc : NPC) (st1 : NPCList)
    (hlen : st.npcs.length = 512) (hmax : st.max_npc ≤ 512)
    (h : st.spawn m npc = SpawnResult.ok st1) :
    st1.npcs.length = 512 ∧ st1.max_npc ≤ 512 := by
  obtain ⟨k, _, hk2, _, _, h5⟩ := spawn_ok_inv st m npc st1 h
  subst h5
  refine ⟨by rw [place_length]; exact hlen, ?_⟩
  simp only [NPCList.place]
  by_cases hc : st.max_npc ≤ k
  · rw [if_pos hc]; omega
  · rw [if_neg hc]; omega

theorem iterNext_yields (st : NPCList) (i : Nat) (h1 : i < st.max_npc)
    (h2 : i < st.npcs.length) : iterNext st i = (some i, i + 1) := by
  obtain ⟨s, hs⟩ := get?_is_some_of_lt st.npcs i h2
  unfold iterNext
  rw [if_neg (by omega), hs]
  rfl

theorem iterNext_stop (st : NPCList) (i : Nat) (h : st.max_npc ≤ i) :
    iterNext st i = (none, i) := by
  unfold iterNext
  rw [if_pos h]

/-- C2: the all-assigned iterator re-reads the cursor on every step rather
than snapshotting it: a next() call at position i yields the slot handle at
i exactly when i is strictly below the cursor of the state at the moment of
the call; hence a spawn that raises the cursor past position i during an
in-flight iteration makes i visited before the iteration ends, and a clear
that resets the cursor makes the iteration stop at once. -/
theorem iter_rereads_cursor (st : NPCList) (i : Nat)
    (hlen : st.npcs.length = 512) (hmax : st.max_npc ≤ 512) :
    (iterNext st i = if i < st.max_npc then (some i, i + 1) else (none, i))
  ∧ (∀ m n st2, st.max_npc ≤ i → st.spawn m n = SpawnResult.ok st2 →
      i < st2.max_npc → (iterNext st i).1 = none ∧ (iterNext st2 i).1 = some i)
  ∧ ((iterNext st.clear i).1 = none) := by
  refine ⟨?_, ?_, ?_⟩
  · by_cases h : i < st.max_npc
    · rw [if_pos h]
      exact iterNext_yields st i h (by omega)
    · rw [if_neg h]
      exact iterNext_stop st i (by omega)
  · intro m n st2 hge hok hlt
    obtain ⟨hlen2, _⟩ := spawn_ok_preserves st m n st2 hlen hmax hok
    constructor
    · rw [iterNext_stop st i hge]
    · rw [iterNext_yields st2 i hlt (by omega)]
  · have : (st.clear).max_npc = 0 := rfl
    rw [iterNext_stop st.clear i (by omega)]

/-- Witness for C2: on a fresh registry (cursor 0) the iteration at
position 0 is over, and after a spawn that raises the cursor to 1 the same
position 0 yields a slot. -/
theorem iter_rereads_cursor_witness :
    (iterNext NPCList.new 0).1 = none
  ∧ (iterNext (NPCList.new.place 0 testNpc) 0).1 = some 0 :=
  (iter_rereads_cursor NPCList.new 0 (by decide) (by decide)).2.1 0 testNpc
    (NPCList.new.place 0 testNpc) (by decide) (by decide) (by decide)

theorem aliveNextA_spec (fuel : Nat) (st : NPCList) (i : Nat)
    (hfuel : st.max_npc ≤ i + fuel) (hml : st.max_npc ≤ st.npcs.length) :
    (∀ j, (aliveNextA fuel st i).1 = some j ↔
        (i ≤ j ∧ j < st.max_npc ∧ aliveAt st j = true ∧
          ∀ l, i ≤ l → l < j → aliveAt st l = false))
  ∧ ((aliveNextA fuel st i).1 = none ↔
        ∀ l, i ≤ l → l < st.max_npc → aliveAt st l = false) := by
  induction fuel generalizing i with
  | zero =>
    simp only [aliveNextA]
    constructor
    · intro j
      constructor
      · intro h; cases h
      · rintro ⟨h1, h2, _, _⟩; omega
    · constructor
      · intro _ l h1 h2; omega
      · intro _; trivial
  | succ fuel ih =>
    simp only [aliveNextA]
    by_cases hi : st.max_npc ≤ i
    · rw [if_pos hi]
      constructor
      · intro j
        constructor
        · intro h; cases h
        · rintro ⟨h1, h2, _, _⟩; omega
      · constructor
        · intro _ l h1 h2; omega
        · intro _; trivial
    · rw [if_neg hi]
      obtain ⟨s, hs⟩ := get?_is_some_of_lt st.npcs i (by omega)
      have ha : aliveAt st i = (!s.busy && s.content.condAlive) := by
        unfold aliveAt
        rw [hs]
      simp only [hs]
      cases halive : (!s.busy && s.content.condAlive) with
      | true =>
        rw [if_pos (rfl : (true : Bool) = true)]
        rw [halive] at ha
        constructor
        · intro j
          constructor
          · intro h
            have hj : j = i := by cases h; rfl
            subst hj
            exact ⟨Nat.le_refl _, by omega, ha, fun l h1 h2 => absurd h2 (by omega)⟩
          · rintro ⟨h1, h2, h3, h4⟩
            by_cases hij : i = j
            · subst hij; rfl
            · have := h4 i (Nat.le_refl _) (by omega)
              rw [ha] at this
              exact absurd this (by simp)
        · constructor
          · intro h; cases h
          · intro h
            have := h i (Nat.le_refl _) (by omega)
            rw [ha] at this
            exact absurd this (by simp)
      | false =>
        rw [if_neg (by simp)]
        rw [halive] at ha
        obtain ⟨ihs, ihn⟩ := ih (i + 1) (by omega)
        constructor
        · intro j
          rw [ihs j]
          constructor
          · rintro ⟨h1, h2, h3, h4⟩
            refine ⟨by omega, h2, h3, fun l hl1 hl2 => ?_⟩
            by_cases hli : l = i
            · subst hli; exact ha
            · exact h4 l (by omega) hl2
          · rintro ⟨h1, h2, h3, h4⟩
            have hij : i ≠ j := by
              intro hij; subst hij
              rw [ha] at h3
              exact absurd h3 (by simp)
            exact ⟨by omega, h2, h3, fun l hl1 hl2 => h4 l (by omega) hl2⟩
        · rw [ihn]
          constructor
          · intro h l h1 h2
            by_cases hli : l = i
            · subst hli; exact ha
            · exact h l (by omega) h2
          · intro h l h1 h2
            exact h l (by omega) h2

/-- C3: the alive-only iterator yields exactly the first slot at or after
its position, below the (re-read) cursor, whose content admits a shared
borrow at the instant of the check and reports alive; every earlier visited
slot fails that test, and a slot that is exclusively borrowed elsewhere
fails it exactly as a dead slot does — it is silently skipped, never an
error. -/
theorem alive_iter_yields_alive_not_busy (st : NPCList) (i : Nat)
    (hml : st.max_npc ≤ st.npcs.length) :
    (∀ j, (aliveNext st i).1 = some j ↔
        (i ≤ j ∧ j < st.max_npc ∧ aliveAt st j = true ∧
          ∀ l, i ≤ l → l < j → aliveAt st l = false))
  ∧ ((aliveNext st i).1 = none ↔
        ∀ l, i ≤ l → l < st.max_npc → aliveAt st l = false)
  ∧ (∀ j s, st.npcs.get? j = some s → s.busy = true → aliveAt st j = false) := by
  obtain ⟨h1, h2⟩ := aliveNextA_spec st.max_npc st i (by omega) hml
  refine ⟨h1, h2, fun j s hs hbusy => ?_⟩
  unfold aliveAt
  simp only [hs]
  rw [hbusy]
  rfl

/-- Witness for C3: in mixedState (cursor 5, slot 1 alive but exclusively
borrowed, slot 2 alive and free) the alive-only iterator started at 0
silently skips the busy slot 1 and yields slot 2. -/
theorem alive_iter_yields_alive_not_busy_witness :
    (aliveNext mixedState 0).1 = some 2 :=
  ((alive_iter_yields_alive_not_busy mixedState 0 (by decide)).1 2).mpr
    ⟨by omega, by decide, by decide, by
      intro l h1 h2
      have : l = 0 ∨ l = 1 := by omega
      rcases this with rfl | rfl <;> decide⟩

/-! ## The clear loop -/

theorem aliveIndicesFromA_congr : ∀ (fuel : Nat) (st st2 : NPCList) (i : Nat),
    st2.max_npc = st.max_npc →
    (∀ l, i ≤ l → st2.npcs.get? l = st.npcs.get? l) →
    aliveIndicesFromA fuel st2 i = aliveIndicesFromA fuel st i := by
  intro fuel
  induction fuel with
  | zero => intro st st2 i _ _; rfl
  | succ fuel ih =>
    intro st st2 i hmax hagree
    simp only [aliveIndicesFromA]
    rw [hmax, hagree i (Nat.le_refl i)]
    by_cases hi : st.max_npc ≤ i
    · rw [if_pos hi, if_pos hi]
    · rw [if_neg hi, if_neg hi]
      cases hg : st.npcs.get? i with
      | none => rfl
      | some s =>
        have ih2 := ih st st2 (i + 1) hmax (fun l hl => hagree l (by omega))
        cases (!s.busy && s.content.condAlive) <;> simp [ih2]


theorem aliveIndicesFromA_stop (fuel : Nat) (st : NPCList) (i : Nat)
    (hi : st.max_npc ≤ i) : aliveIndicesFromA fuel st i = [] := by
  cases fuel with
  | zero => rfl
  | succ fuel =>
    simp only [aliveIndicesFromA]
    rw [if_pos hi]

theorem aliveIndicesFromA_step (fuel : Nat) (st : NPCList) (i : Nat) (s : Slot)
    (hi : ¬ st.max_npc ≤ i) (hg : st.npcs.get? i = some s) :
    aliveIndicesFromA (fuel + 1) st i =
      if (!s.busy && s.content.condAlive) = true then i :: aliveIndicesFromA fuel st (i + 1)
      else aliveIndicesFromA fuel st (i + 1) := by
  simp only [aliveIndicesFromA]
  rw [if_neg hi]
  simp only [hg]

theorem clearLoopA_stop (fuel : Nat) (st : NPCList) (i idx : Nat)
    (hi : st.max_npc ≤ i) : clearLoopA fuel st i idx = st := by
  cases fuel with
  | zero => rfl
  | succ fuel =>
    simp only [clearLoopA]
    rw [if_pos hi]

theorem clearLoopA_step (fuel : Nat) (st : NPCList) (i idx : Nat) (s : Slot)
    (hi : ¬ st.max_npc ≤ i) (hg : st.npcs.get? i = some s) :
    clearLoopA (fuel + 1) st i idx =
      if (!s.busy && s.content.condAlive) = true then
        clearLoopA fuel { st with npcs := setContent st.npcs i { NPC.empty with id := idx } }
          (i + 1) (idx + 1)
      else clearLoopA fuel st (i + 1) idx := by
  simp only [clearLoopA]
  rw [if_neg hi]
  simp only [hg]

theorem aliveIndicesFromA_none (fuel : Nat) (st : NPCList) (i : Nat)
    (hi : ¬ st.max_npc ≤ i) (hg : st.npcs.get? i = none) :
    aliveIndicesFromA fuel st i = [] := by
  cases fuel with
  | zero => rfl
  | succ fuel =>
    simp only [aliveIndicesFromA]
    rw [if_neg hi]
    simp only [hg]

theorem clearLoopA_none (fuel : Nat) (st : NPCList) (i idx : Nat)
    (hi : ¬ st.max_npc ≤ i) (hg : st.npcs.get? i = none) :
    clearLoopA fuel st i idx = st := by
  cases fuel with
  | zero => rfl
  | succ fuel =>
    simp only [clearLoopA]
    rw [if_neg hi]
    simp only [hg]

theorem aliveIndicesFromA_ge : ∀ (fuel : Nat) (st : NPCList) (i x : Nat),
    x ∈ aliveIndicesFromA fuel st i → i ≤ x := by
  intro fuel
  induction fuel with
  | zero => intro st i x h; cases h
  | succ fuel ih =>
    intro st i x h
    by_cases hi : st.max_npc ≤ i
    · rw [aliveIndicesFromA_stop _ st i hi] at h; cases h
    · cases hg : st.npcs.get? i with
      | none => rw [aliveIndicesFromA_none _ st i hi hg] at h; cases h
      | some s =>
        rw [aliveIndicesFromA_step fuel st i s hi hg] at h
        cases halive : (!s.busy && s.content.condAlive) with
        | true =>
          rw [halive, if_pos rfl] at h
          cases h with
          | head => exact Nat.le_refl i
          | tail _ hmem => have := ih st (i + 1) x hmem; omega
        | false =>
          rw [halive, if_neg (by simp)] at h
          have := ih st (i + 1) x h
          omega

theorem aliveIndicesFromA_aliveAt : ∀ (fuel : Nat) (st : NPCList) (i j : Nat),
    j ∈ aliveIndicesFromA fuel st i → aliveAt st j = true ∧ j < st.max_npc := by
  intro fuel
  induction fuel with
  | zero => intro st i j h; cases h
  | succ fuel ih =>
    intro st i j h
    by_cases hi : st.max_npc ≤ i
    · rw [aliveIndicesFromA_stop _ st i hi] at h; cases h
    · cases hg : st.npcs.get? i with
      | none => rw [aliveIndicesFromA_none _ st i hi hg] at h; cases h
      | some s =>
        rw [aliveIndicesFromA_step fuel st i s hi hg] at h
        cases halive : (!s.busy && s.content.condAlive) with
        | true =>
          rw [halive, if_pos rfl] at h
          cases h with
          | head =>
            refine ⟨?_, by omega⟩
            unfold aliveAt
            simp only [hg]
            exact halive
          | tail _ hmem => exact ih st (i + 1) j hmem
        | false =>
          rw [halive, if_neg (by simp)] at h
          exact ih st (i + 1) j h

theorem clearLoopA_frame : ∀ (fuel : Nat) (st : NPCList) (i idx : Nat),
    (clearLoopA fuel st i idx).max_npc = st.max_npc
  ∧ (clearLoopA fuel st i idx).npcs.length = st.npcs.length
  ∧ (clearLoopA fuel st i idx).seed = st.seed := by
  intro fuel
  induction fuel with
  | zero => intro st i idx; exact ⟨rfl, rfl, rfl⟩
  | succ fuel ih =>
    intro st i idx
    by_cases hi : st.max_npc ≤ i
    · rw [clearLoopA_stop _ st i idx hi]; exact ⟨rfl, rfl, rfl⟩
    · cases hg : st.npcs.get? i with
      | none => rw [clearLoopA_none _ st i idx hi hg]; exact ⟨rfl, rfl, rfl⟩
      | some s =>
        rw [clearLoopA_step fuel st i idx s hi hg]
        cases halive : (!s.busy && s.content.condAlive) with
        | true =>
          rw [if_pos rfl]
          have h2 := ih { st with npcs := setContent st.npcs i { NPC.empty with id := idx } }
            (i + 1) (idx + 1)
          simpa [setContent_length] using h2
        | false =>
          rw [if_neg (by simp)]
          exact ih st (i + 1) idx

theorem clearLoopA_not_visited : ∀ (fuel : Nat) (st : NPCList) (i idx j : Nat),
    j ∉ aliveIndicesFromA fuel st i →
    (clearLoopA fuel st i idx).npcs.get? j = st.npcs.get? j := by
  intro fuel
  induction fuel with
  | zero => intro st i idx j _; rfl
  | succ fuel ih =>
    intro st i idx j hmem
    by_cases hi : st.max_npc ≤ i
    · rw [clearLoopA_stop _ st i idx hi]
    · cases hg : st.npcs.get? i with
      | none => rw [clearLoopA_none _ st i idx hi hg]
      | some s =>
        rw [clearLoopA_step fuel st i idx s hi hg]
        rw [aliveIndicesFromA_step fuel st i s hi hg] at hmem
        cases halive : (!s.busy && s.content.condAlive) with
        | true =>
          rw [halive, if_pos rfl] at hmem
          rw [if_pos rfl]
          have hji : j ≠ i := fun hc => hmem (hc ▸ List.mem_cons_self i _)
          have hrest : j ∉ aliveIndicesFromA fuel st (i + 1) :=
            fun hc => hmem (List.mem_cons_of_mem i hc)
          have hcongr : aliveIndicesFromA fuel
              { st with npcs := setContent st.npcs i { NPC.empty with id := idx } } (i + 1)
              = aliveIndicesFromA fuel st (i + 1) :=
            aliveIndicesFromA_congr fuel st _ (i + 1) rfl
              (fun l hl => get?_setContent_ne st.npcs l i _ (by omega))
          rw [ih _ (i + 1) (idx + 1) j (hcongr ▸ hrest)]
          exact get?_setContent_ne st.npcs j i _ hji
        | false =>
          rw [halive, if_neg (by simp)] at hmem
          rw [if_neg (by simp)]
          exact ih st (i + 1) idx j hmem

theorem clearLoopA_visited : ∀ (fuel : Nat) (st : NPCList) (i idx t j : Nat),
    (aliveIndicesFromA fuel st i).get? t = some j →
    (clearLoopA fuel st i idx).npcs.get? j
      = (st.npcs.get? j).map
          (fun s => { s with content := { NPC.empty with id := idx + t } }) := by
  intro fuel
  induction fuel with
  | zero => intro st i idx t j h; cases h
  | succ fuel ih =>
    intro st i idx t j h
    by_cases hi : st.max_npc ≤ i
    · rw [aliveIndicesFromA_stop _ st i hi] at h; cases h
    · cases hg : st.npcs.get? i with
      | none => rw [aliveIndicesFromA_none _ st i hi hg] at h; cases h
      | some s =>
        rw [aliveIndicesFromA_step fuel st i s hi hg] at h
        rw [clearLoopA_step fuel st i idx s hi hg]
        cases halive : (!s.busy && s.content.condAlive) with
        | true =>
          rw [halive, if_pos rfl] at h
          rw [if_pos rfl]
          have hcongr : aliveIndicesFromA fuel
              { st with npcs := setContent st.npcs i { NPC.empty with id := idx } } (i + 1)
              = aliveIndicesFromA fuel st (i + 1) :=
            aliveIndicesFromA_congr fuel st _ (i + 1) rfl
              (fun l hl => get?_setContent_ne st.npcs l i _ (by omega))
          cases t with
          | zero =>
            have hj : j = i := by cases h; rfl
            subst hj
            have hnot : j ∉ aliveIndicesFromA fuel
                { st with npcs := setContent st.npcs j { NPC.empty with id := idx } }
                (j + 1) := by
              intro hc
              have := aliveIndicesFromA_ge fuel _ (j + 1) j hc
              omega
            rw [clearLoopA_not_visited fuel _ (j + 1) (idx + 1) j hnot]
            show (setContent st.npcs j { NPC.empty with id := idx }).get? j = _
            rw [get?_setContent_self, Nat.add_zero]
          | succ t =>
            have hrest : (aliveIndicesFromA fuel st (i + 1)).get? t = some j := h
            have hmem : j ∈ aliveIndicesFromA fuel st (i + 1) := List.get?_mem hrest
            have hji : j ≠ i := by
              have := aliveIndicesFromA_ge fuel st (i + 1) j hmem
              omega
            rw [ih _ (i + 1) (idx + 1) t j (by rw [hcongr]; exact hrest)]
            rw [get?_setContent_ne st.npcs j i _ hji]
            have harith : idx + 1 + t = idx + (t + 1) := by omega
            rw [harith]
        | false =>
          rw [halive, if_neg (by simp)] at h
          rw [if_neg (by simp)]
          exact ih st (i + 1) idx t j h

/-- C7: clear() walks the alive-only view, replaces each visited slot's
content with the empty sentinel whose id is the slot's enumeration position
within the clear pass (0, 1, 2, … in visitation order, not its slot index),
then resets the cursor to 0; afterwards the alive-only view yields nothing
(alive count 0) and current_capacity() returns 0. -/
theorem clear_erases_alive_view (st : NPCList) :
    (∀ t j, (aliveIndices st).get? t = some j →
        (st.clear).npcs.get? j = (st.npcs.get? j).map
          (fun s => { s with content := { NPC.empty with id := t } }))
  ∧ (st.clear).current_capacity = 0
  ∧ aliveIndices (st.clear) = []
  ∧ (aliveIndices (st.clear)).length = 0 := by
  refine ⟨fun t j h => ?_, rfl, rfl, rfl⟩
  have hv := clearLoopA_visited st.max_npc st 0 0 t j h
  calc (st.clear).npcs.get? j = (clearLoopA st.max_npc st 0 0).npcs.get? j := rfl
    _ = (st.npcs.get? j).map (fun s => { s with content := { NPC.empty with id := 0 + t } }) := hv
    _ = (st.npcs.get? j).map (fun s => { s with content := { NPC.empty with id := t } }) := by
        rw [Nat.zero_add]

/-- Witness for C7: in clearDemo (cursor 5, slot 2 alive) the alive view
yields slot 2 first, and clear() rewrites slot 2 with the empty sentinel
carrying enumeration id 0 and resets the capacity. -/
theorem clear_erases_alive_view_witness :
    ((clearDemo.clear).npcs.get? 2 = (clearDemo.npcs.get? 2).map
      (fun s => { s with content := { NPC.empty with id := 0 } }))
  ∧ (clearDemo.clear).current_capacity = 0 :=
  ⟨(clear_erases_alive_view clearDemo).1 0 2 (by decide),
   (clear_erases_alive_view clearDemo).2.1⟩

/-- C10: clear() physically erases only the slots the alive-only view
yields; a slot below the cursor whose content is not alive — or which is
exclusively borrowed at check time — keeps its exact previous contents
after clear() and merely becomes unreachable because the cursor is reset
to 0. -/
theorem clear_preserves_non_erased_slots (st : NPCList) (j : Nat) (s : Slot)
    (hj : j < st.max_npc) (hs : st.npcs.get? j = some s)
    (hna : s.busy = true ∨ s.content.condAlive = false) :
    (st.clear).npcs.get? j = some s ∧ (st.clear).max_npc = 0 := by
  have halive : aliveAt st j = false := by
    unfold aliveAt
    simp only [hs]
    rcases hna with h | h <;> rw [h] <;> simp
  have hnot : j ∉ aliveIndices st := by
    intro hc
    have hmem : j ∈ aliveIndicesFromA st.max_npc st 0 := hc
    have := (aliveIndicesFromA_aliveAt st.max_npc st 0 j hmem).1
    rw [halive] at this
    exact absurd this (by simp)
  have hnv : j ∉ aliveIndicesFromA st.max_npc st 0 := hnot
  refine ⟨?_, rfl⟩
  calc (st.clear).npcs.get? j = (clearLoopA st.max_npc st 0 0).npcs.get? j := rfl
    _ = st.npcs.get? j := clearLoopA_not_visited st.max_npc st 0 0 j hnv
    _ = some s := hs

/-- Witness for C10: slot 3 of mixedState is occupied but dead (and slot 1
busy); after clear() slot 3 still holds its previous contents and the
cursor is 0. -/
theorem clear_preserves_non_erased_slots_witness :
    (mixedState.clear).npcs.get? 3 = some { content := { NPC.empty with id := 3 }, busy := false }
  ∧ (mixedState.clear).max_npc = 0 :=
  clear_preserves_non_erased_slots mixedState 3
    { content := { NPC.empty with id := 3 }, busy := false }
    (by decide) (by decide) (Or.inr rfl)

/-! ## The allocation cursor along operation traces -/

theorem spawn_panicked_state (st : NPCList) (m : Nat) (npc : NPC) (st1 : NPCList)
    (h : st.spawn m npc = SpawnResult.panicked st1) : st1 = st := by
  simp only [NPCList.spawn] at h
  by_cases hb : st.npcs.length ≤ m
  · rw [if_pos hb] at h; cases h
  · rw [if_neg hb] at h
    cases hscan : scanFrom st.npcs m with
    | none => simp only [hscan] at h; cases h
    | some k =>
      simp only [hscan] at h
      cases hg : st.npcs.get? k with
      | none => simp only [hg] at h; cases h; rfl
      | some s =>
        simp only [hg] at h
        cases hbusy : s.busy with
        | true => simp only [hbusy] at h; rw [if_pos trivial] at h; cases h; rfl
        | false => simp only [hbusy] at h; rw [if_neg (by simp)] at h; cases h

theorem spawn_at_slot_panicked_state (st : NPCList) (i : Nat) (npc : NPC) (st2 : NPCList)
    (h : st.spawn_at_slot i npc = SpawnResult.panicked st2) : st2 = st := by
  simp only [NPCList.spawn_at_slot] at h
  by_cases hb : st.npcs.length ≤ i
  · rw [if_pos hb] at h; cases h
  · rw [if_neg hb] at h
    cases hg : st.npcs.get? i with
    | none => simp only [hg] at h; cases h; rfl
    | some s =>
      simp only [hg] at h
      cases hbusy : s.busy with
      | true => simp only [hbusy] at h; rw [if_pos trivial] at h; cases h; rfl
      | false => simp only [hbusy] at h; rw [if_neg (by simp)] at h; cases h

theorem opPlaced_some_max (st : NPCList) (op : Op) (k : Nat)
    (h : opPlaced st op = some k) :
    (applyOp st op).max_npc = if st.max_npc ≤ k then k + 1 else st.max_npc := by
  cases op with
  | clear => simp only [opPlaced] at h; cases h
  | spawn m n =>
    cases hr : st.spawn m n with
    | ok st1 =>
      simp only [opPlaced, hr] at h
      obtain ⟨k2, hk1, hk2, hfree, hmin, hpl⟩ := spawn_ok_inv st m n st1 hr
      rw [(scanFrom_some_iff st.npcs m k2).mpr ⟨hk1, hfree, hmin⟩] at h
      cases h
      simp only [applyOp, hr, SpawnResult.state]
      rw [hpl]
      rfl
    | err e st1 => simp only [opPlaced, hr] at h; cases h
    | panicked st1 => simp only [opPlaced, hr] at h; cases h
  | spawn_at_slot i n =>
    cases hr : st.spawn_at_slot i n with
    | ok st2 =>
      simp only [opPlaced, hr] at h
      injection h with hik
      subst hik
      obtain ⟨hi, hpl⟩ := spawn_at_slot_ok_inv st i n st2 hr
      simp only [applyOp, hr, SpawnResult.state]
      rw [hpl]
      rfl
    | err e st2 => simp only [opPlaced, hr] at h; cases h
    | panicked st2 => simp only [opPlaced, hr] at h; cases h

theorem opPlaced_some_lt (st : NPCList) (op : Op) (k : Nat)
    (h : opPlaced st op = some k) : k < st.npcs.length := by
  cases op with
  | clear => simp only [opPlaced] at h; cases h
  | spawn m n =>
    cases hr : st.spawn m n with
    | ok st1 =>
      simp only [opPlaced, hr] at h
      obtain ⟨k2, hk1, hk2, hfree, hmin, hpl⟩ := spawn_ok_inv st m n st1 hr
      rw [(scanFrom_some_iff st.npcs m k2).mpr ⟨hk1, hfree, hmin⟩] at h
      cases h
      exact hk2
    | err e st1 => simp only [opPlaced, hr] at h; cases h
    | panicked st1 => simp only [opPlaced, hr] at h; cases h
  | spawn_at_slot i n =>
    cases hr : st.spawn_at_slot i n with
    | ok st2 =>
      simp only [opPlaced, hr] at h
      injection h with hik
      subst hik
      exact (spawn_at_slot_ok_inv st i n st2 hr).1
    | err e st2 => simp only [opPlaced, hr] at h; cases h
    | panicked st2 => simp only [opPlaced, hr] at h; cases h

theorem opPlaced_none_max (st : NPCList) (op : Op) (hop : op ≠ Op.clear)
    (h : opPlaced st op = none) : (applyOp st op).max_npc = st.max_npc := by
  cases op with
  | clear => exact absurd rfl hop
  | spawn m n =>
    cases hr : st.spawn m n with
    | ok st1 =>
      simp only [opPlaced, hr] at h
      obtain ⟨k2, hk1, hk2, hfree, hmin, hpl⟩ := spawn_ok_inv st m n st1 hr
      rw [(scanFrom_some_iff st.npcs m k2).mpr ⟨hk1, hfree, hmin⟩] at h
      cases h
    | err e st1 =>
      simp only [applyOp, hr, SpawnResult.state]
      rw [spawn_err_state st m n e st1 hr]
    | panicked st1 =>
      simp only [applyOp, hr, SpawnResult.state]
      rw [spawn_panicked_state st m n st1 hr]
  | spawn_at_slot i n =>
    cases hr : st.spawn_at_slot i n with
    | ok st2 => simp only [opPlaced, hr] at h; cases h
    | err e st2 =>
      simp only [applyOp, hr, SpawnResult.state]
      rw [spawn_at_slot_err_state st i n e st2 hr]
    | panicked st2 =>
      simp only [applyOp, hr, SpawnResult.state]
      rw [spawn_at_slot_panicked_state st i n st2 hr]

theorem applyOp_mono (st : NPCList) (op : Op) (hop : op ≠ Op.clear) :
    st.max_npc ≤ (applyOp st op).max_npc := by
  cases hp : opPlaced st op with
  | some k =>
    rw [opPlaced_some_max st op k hp]
    by_cases hc : st.max_npc ≤ k
    · rw [if_pos hc]; omega
    · rw [if_neg hc]
  | none =>
    rw [opPlaced_none_max st op hop hp]

theorem applyOp_max_le_nonclear (st : NPCList) (op : Op) (hop : op ≠ Op.clear)
    (hlen : st.npcs.length = 512) (hmax : st.max_npc ≤ 512) :
    (applyOp st op).max_npc ≤ 512 := by
  cases hp : opPlaced st op with
  | some k =>
    have hlt := opPlaced_some_lt st op k hp
    rw [opPlaced_some_max st op k hp]
    by_cases hc : st.max_npc ≤ k
    · rw [if_pos hc]; omega
    · rw [if_neg hc]; omega
  | none =>
    rw [opPlaced_none_max st op hop hp]
    omega

theorem applyOp_max_le (st : NPCList) (op : Op) (hlen : st.npcs.length = 512)
    (hmax : st.max_npc ≤ 512) : (applyOp st op).max_npc ≤ 512 := by
  cases op with
  | clear =>
    have h0 : (applyOp st Op.clear).max_npc = 0 := rfl
    omega
  | spawn m n =>
    exact applyOp_max_le_nonclear st _ (fun hc => Op.noConfusion hc) hlen hmax
  | spawn_at_slot i n =>
    exact applyOp_max_le_nonclear st _ (fun hc => Op.noConfusion hc) hlen hmax

theorem hiWater_cons (k : Nat) (l : List Nat) :
    hiWater (k :: l) = Nat.max (k + 1) (hiWater l) := rfl

theorem run_max_of_clear_free : ∀ (ops : List Op) (st : NPCList),
    Op.clear ∉ ops →
    (run st ops).max_npc = Nat.max st.max_npc (hiWater (placedIndices st ops)) := by
  intro ops
  induction ops with
  | nil =>
    intro st h
    simp [run, placedIndices, hiWater, Nat.max_zero]
  | cons op rest ih =>
    intro st h
    have hop : op ≠ Op.clear := fun hc => h (hc ▸ List.mem_cons_self _ _)
    have hrest : Op.clear ∉ rest := fun hc => h (List.mem_cons_of_mem _ hc)
    cases hp : opPlaced st op with
    | some k =>
      simp only [run, placedIndices, hp]
      rw [ih (applyOp st op) hrest, opPlaced_some_max st op k hp]
      rw [List.singleton_append, hiWater_cons]
      simp only [show ∀ x y : Nat, Nat.max x y = max x y from fun _ _ => rfl]
      by_cases hc : st.max_npc ≤ k
      · rw [if_pos hc]; omega
      · rw [if_neg hc]; omega
    | none =>
      simp only [run, placedIndices, hp]
      rw [ih (applyOp st op) hrest, opPlaced_none_max st op hop hp]
      rw [List.nil_append]

/-- C5: the allocation cursor invariant: current_capacity always lies in
[0, 512]; it is monotonically non-decreasing under every operation except
clear(), which resets it to 0; a successful placement at index k advances
it to k + 1 exactly when k is at or above the cursor and leaves it alone
otherwise; and along any clear-free trace started at cursor 0 it equals one
more than the highest index targeted by a placement, or 0 when no placement
happened. -/
theorem cursor_invariant (st : NPCList) (op : Op) (ops : List Op)
    (hlen : st.npcs.length = 512) (hmax : st.max_npc ≤ 512) :
    (applyOp st op).current_capacity ≤ 512
  ∧ (op ≠ Op.clear → st.max_npc ≤ (applyOp st op).max_npc)
  ∧ (applyOp st Op.clear).max_npc = 0
  ∧ (∀ k, opPlaced st op = some k →
      (applyOp st op).max_npc = if st.max_npc ≤ k then k + 1 else st.max_npc)
  ∧ (st.max_npc = 0 → Op.clear ∉ ops →
      (run st ops).max_npc = hiWater (placedIndices st ops)) :=
  ⟨applyOp_max_le st op hlen hmax,
   fun hop => applyOp_mono st op hop,
   rfl,
   fun k h => opPlaced_some_max st op k h,
   fun h0 hcf => by
     rw [run_max_of_clear_free ops st hcf, h0]
     simp only [show ∀ x y : Nat, Nat.max x y = max x y from fun _ _ => rfl]
     omega⟩

/-- Witness for C5: running the concrete clear-free trace demoOps (a
placement at slot 2 then a spawn that lands at slot 0) from a fresh
registry leaves the cursor at one more than the highest placed index. -/
theorem cursor_invariant_witness :
    (run NPCList.new demoOps).max_npc = hiWater (placedIndices NPCList.new demoOps) :=
  (cursor_invariant NPCList.new Op.clear demoOps (by decide) (by decide)).2.2.2.2
    rfl (by decide)
